import Mathlib

/-!
Shallow embedding of the Brizy Cloud Cache Generator single-page app
(src/src/App.tsx).

Each React `useState` variable becomes a field of `AppState`; each event
handler of the component becomes a pure state transformer; the two
`useEffect` blocks become `runEffects`, re-run after an event exactly when
one of the values in their dependency array changed, mirroring React's
dependency-array semantics (both effects share the same dependency array
`[currentIndex, isProcessing, isPaused, urls.length, timeDelay]`).

The browser DOM layer (`DOMParser` / `getElementsByTagName('loc')`) is
abstracted: a sitemap document is represented by the ordered list of the
`textContent` values of its `loc` elements (`none` for a null
`textContent`).  Purely presentational state with no behavioural role
(`sitemapContent`, `sitemapUrl`, `isLoading`, `showPermissionDialog`) is
omitted.  Events return, besides the next state, the list of URLs passed
to `window.open` while handling the event.
-/

namespace Brizy

/-- The `SitemapUrl` interface of App.tsx. -/
structure SitemapUrl where
  url : String
  visited : Bool
deriving Repr, DecidableEq

/-- The `useState` variables of the component, plus `timerArmed`, which
models whether the `setTimeout` handle created by the timer `useEffect`
is currently pending (the effect's cleanup clears it). -/
structure AppState where
  urls : List SitemapUrl
  isProcessing : Bool
  currentIndex : Int
  isPaused : Bool
  error : String
  timeDelay : Int
  nextPageCountdown : Int
  estimatedTimeLeft : String
  timerArmed : Bool
deriving Repr, DecidableEq

/-- `parseSitemap`: maps every `loc` element, in document order, to a
record `{ url: loc.textContent || '', visited: false }`.  A null or empty
`textContent` both yield `''` (JavaScript `||`). -/
def parseSitemap (locs : List (Option String)) : List SitemapUrl :=
  locs.map fun t => { url := t.getD "", visited := false }

/-- The duration formatting of the `estimatedTimeLeft` effect:
`hours = Math.floor(total/3600)`, `minutes = Math.floor((total%3600)/60)`,
`seconds = total%60`, pushing `h`/`m`/`s` parts only when strictly
positive, joined by single spaces.  JavaScript `%` is a truncated
remainder (`Int.tmod`) and `Math.floor` of a quotient is `Int.fdiv`. -/
def formatDuration (totalSeconds : Int) : String :=
  let hours := Int.fdiv totalSeconds 3600
  let minutes := Int.fdiv (Int.tmod totalSeconds 3600) 60
  let seconds := Int.tmod totalSeconds 60
  let parts :=
    (if hours > 0 then [toString hours ++ "h"] else []) ++
    (if minutes > 0 then [toString minutes ++ "m"] else []) ++
    (if seconds > 0 then [toString seconds ++ "s"] else [])
  String.intercalate " " parts

/-- Helper for `prev.map((url, idx) => idx === nextIndex ? {...url, visited: true} : url)`:
`base` is the index of the head of the remaining list. -/
def markVisitedAux (target : Int) (base : Int) : List SitemapUrl → List SitemapUrl
  | [] => []
  | r :: rest =>
      (if base = target then { r with visited := true } else r) ::
        markVisitedAux target (base + 1) rest

/-- The functional `setUrls` update of `processNextUrl`. -/
def markVisited (urls : List SitemapUrl) (target : Int) : List SitemapUrl :=
  markVisitedAux target 0 urls

/-- `prev.map(url => ({ ...url, visited: false }))` from `resetProcess`. -/
def clearVisited (urls : List SitemapUrl) : List SitemapUrl :=
  urls.map fun r => { r with visited := false }

/-- `processNextUrl` of App.tsx.  Returns the next state and the list of
URLs opened via `window.open`. -/
def processNextUrl (s : AppState) : AppState × List String :=
  if s.currentIndex < (s.urls.length : Int) - 1 ∧ s.isPaused = false then
    let nextIndex := s.currentIndex + 1
    ({ s with
        currentIndex := nextIndex,
        urls := markVisited s.urls nextIndex },
     ((s.urls[nextIndex.toNat]?).map (fun r => r.url)).toList)
  else if s.currentIndex = (s.urls.length : Int) - 1 then
    ({ s with isProcessing := false }, [])
  else
    (s, [])

/-- The state writes of `handleFileUpload`'s `onload` callback (the raw
`sitemapContent` string is presentational and omitted). -/
def handleFileUpload (locs : List (Option String)) (s : AppState) : AppState :=
  { s with urls := parseSitemap locs, currentIndex := -1, error := "" }

/-- The success path of `fetchSitemap`: `setError('')` up front, then the
parsed records and `currentIndex = -1`. -/
def fetchSitemapOk (locs : List (Option String)) (s : AppState) : AppState :=
  { s with error := "", urls := parseSitemap locs, currentIndex := -1 }

/-- The user-facing message set by `fetchSitemap`'s catch branch. -/
def fetchErrorMessage : String :=
  "Failed to fetch sitemap. Please check the URL and try again."

/-- The failure path of `fetchSitemap`: `setError('')` up front, then the
catch branch sets the message and `setUrls([])`.  `currentIndex` and
`isProcessing` are not touched on this path. -/
def fetchSitemapErr (s : AppState) : AppState :=
  { s with error := fetchErrorMessage, urls := [] }

/-- `handleTimeDelayChange`: the submitted value is accepted only when not
processing and at least 20 (a NaN from `parseInt` fails `>= 20` just like
any rejected integer, so `Int` covers all behaviours). -/
def handleTimeDelayChange (v : Int) (s : AppState) : AppState :=
  if s.isProcessing = false ∧ v ≥ 20 then { s with timeDelay := v } else s

/-- `confirmStart` of App.tsx: sets `isProcessing := true`,
`isPaused := false`, and if `currentIndex === -1` calls `processNextUrl`.
`processNextUrl` reads `currentIndex`, `urls` and `isPaused` from the
render closure, i.e. the pre-event values — hence it runs on the state
with the old `isPaused`; its writes land on top of the handler's own
writes, and it never writes `isPaused`, so the `setIsPaused(false)` write
is restored afterwards. -/
def confirmStart (s : AppState) : AppState × List String :=
  let s1 := { s with isProcessing := true, isPaused := false }
  if s.currentIndex = -1 then
    let p := processNextUrl { s1 with isPaused := s.isPaused }
    ({ p.1 with isPaused := false }, p.2)
  else
    (s1, [])

/-- The pause button: `setIsPaused(!isPaused)`. -/
def togglePause (s : AppState) : AppState :=
  { s with isPaused := !s.isPaused }

/-- `resetProcess` of App.tsx. -/
def resetProcess (s : AppState) : AppState :=
  { s with
      urls := clearVisited s.urls,
      currentIndex := -1,
      isProcessing := false,
      isPaused := false,
      estimatedTimeLeft := "",
      nextPageCountdown := 0 }

/-- The `setTimeout(processNextUrl, timeDelay * 1000)` handle firing.  It
can only fire while armed; the effect cleanup (`clearTimeout`) runs on
every dependency change, so a fired timer always sees the current
governing state. -/
def stepTimerFire (s : AppState) : AppState × List String :=
  if s.timerArmed then processNextUrl s else (s, [])

/-- One tick of the `setInterval` countdown:
`setNextPageCountdown(prev => Math.max(0, prev - 1))`.  The interval is
armed and cleared together with the step timer. -/
def countdownTick (s : AppState) : AppState :=
  if s.timerArmed then { s with nextPageCountdown := max 0 (s.nextPageCountdown - 1) }
  else s

/-- The first `useEffect`: when processing, not paused and
`currentIndex < urls.length - 1`, it sets the countdown to `timeDelay`
and arms the step timer; otherwise (after cleanup) no timer is pending. -/
def runTimerEffect (s : AppState) : AppState :=
  if s.isProcessing = true ∧ s.isPaused = false ∧
      s.currentIndex < (s.urls.length : Int) - 1 then
    { s with nextPageCountdown := s.timeDelay, timerArmed := true }
  else
    { s with timerArmed := false }

/-- The second `useEffect`: while processing and not paused,
`estimatedTimeLeft` is the formatted
`(urls.length - (currentIndex + 1)) * timeDelay`; otherwise it is
cleared. -/
def runEtaEffect (s : AppState) : AppState :=
  if s.isProcessing = true ∧ s.isPaused = false then
    { s with
        estimatedTimeLeft :=
          formatDuration (((s.urls.length : Int) - (s.currentIndex + 1)) * s.timeDelay) }
  else
    { s with estimatedTimeLeft := "" }

/-- The shared dependency array of both effects. -/
def effectDeps (s : AppState) : Int × Bool × Bool × Nat × Int :=
  (s.currentIndex, s.isProcessing, s.isPaused, s.urls.length, s.timeDelay)

/-- Both effects, in source order. -/
def runEffects (s : AppState) : AppState :=
  runEtaEffect (runTimerEffect s)

/-- The external events the component reacts to.  A successful remote
fetch and a file upload are distinct events (they flow through different
handlers); both carry the extracted `loc` text contents. -/
inductive Event where
  | loadFile (locs : List (Option String))
  | fetchOk (locs : List (Option String))
  | fetchFail
  | start
  | pauseToggle
  | reset
  | stepTimer
  | tick
  | delayChange (v : Int)
deriving Repr, DecidableEq

/-- Dispatch an event to its handler. -/
def handleEvent : Event → AppState → AppState × List String
  | .loadFile locs, s => (handleFileUpload locs s, [])
  | .fetchOk locs, s => (fetchSitemapOk locs s, [])
  | .fetchFail, s => (fetchSitemapErr s, [])
  | .start, s => confirmStart s
  | .pauseToggle, s => (togglePause s, [])
  | .reset, s => (resetProcess s, [])
  | .stepTimer, s => stepTimerFire s
  | .tick, s => (countdownTick s, [])
  | .delayChange v, s => (handleTimeDelayChange v s, [])

/-- Handle an event and re-run the effects exactly when their dependency
array changed (React skips effects whose dependencies are unchanged, so a
pure countdown tick does not reset the countdown). -/
def applyEvent (e : Event) (s : AppState) : AppState × List String :=
  let p := handleEvent e s
  (if effectDeps p.1 = effectDeps s then p.1 else runEffects p.1, p.2)

/-- The state reached by an event, discarding the opened URLs. -/
def evApply (e : Event) (s : AppState) : AppState :=
  (applyEvent e s).1

/-- The initial render: all `useState` initial values, with the effects
run on mount. -/
def initState : AppState :=
  runEffects
    { urls := [], isProcessing := false, currentIndex := -1, isPaused := false,
      error := "", timeDelay := 30, nextPageCountdown := 0,
      estimatedTimeLeft := "", timerArmed := false }

/-- The states the component can be in: the initial render followed by any
sequence of events. -/
inductive Reachable : AppState → Prop where
  | init : Reachable initState
  | step (e : Event) {s : AppState} : Reachable s → Reachable (evApply e s)

/-! ### Predicates and auxiliary definitions used by the verification -/

/-- The visited flags record exactly the indices up to `currentIndex`. -/
def VisOK (s : AppState) : Prop :=
  -1 ≤ s.currentIndex ∧
    ∀ i : Nat, ∀ r : SitemapUrl, s.urls[i]? = some r →
      (r.visited = true ↔ (i : Int) ≤ s.currentIndex)

/-- The step timer is pending exactly when the timer effect's guard
holds. -/
def ArmedOK (s : AppState) : Prop :=
  s.timerArmed = true ↔
    (s.isProcessing = true ∧ s.isPaused = false ∧
      s.currentIndex < (s.urls.length : Int) - 1)

/-- While processing and not paused, the displayed remaining time is the
formatted remaining duration. -/
def EtaOK (s : AppState) : Prop :=
  s.isProcessing = true → s.isPaused = false →
    s.estimatedTimeLeft =
      formatDuration (((s.urls.length : Int) - (s.currentIndex + 1)) * s.timeDelay)

/-- Everything the claims need of a reachable state. -/
def GoodState (s : AppState) : Prop :=
  VisOK s ∧ 20 ≤ s.timeDelay ∧ ArmedOK s ∧ EtaOK s

/-- Modelled from the spec: the spec's own description of the remaining-time
format — "formatted into hours/minutes/seconds components, omitting any
zero-valued leading components, joined by spaces" — for comparison against
the code's `formatDuration`, which omits every zero-valued component. -/
def specFormatDuration (totalSeconds : Int) : String :=
  let hours := Int.fdiv totalSeconds 3600
  let minutes := Int.fdiv (Int.tmod totalSeconds 3600) 60
  let seconds := Int.tmod totalSeconds 60
  let comps := [(hours, "h"), (minutes, "m"), (seconds, "s")]
  let rest := comps.dropWhile (fun p => p.1 == 0)
  String.intercalate " " (rest.map (fun p => toString p.1 ++ p.2))

/-- Modelled from the spec: the claim's "text content, trimmed" —
surrounding whitespace removed from both ends — written over the
character list so that it evaluates by kernel reduction. -/
def specTrim (s : String) : String :=
  String.mk (((s.data.dropWhile Char.isWhitespace).reverse.dropWhile
    Char.isWhitespace).reverse)

/-- Concrete run: a three-URL sitemap has been loaded. -/
def demoLoad3 : AppState :=
  evApply (.loadFile [some "a", some "b", some "c"]) initState

/-- Concrete run: processing started on the three-URL sitemap
(`currentIndex = 0`, first record visited). -/
def demoRun3 : AppState :=
  evApply .start demoLoad3

/-- Concrete run: the three-URL run paused at `currentIndex = 0`. -/
def demoPaused3 : AppState :=
  evApply .pauseToggle demoRun3

/-- A concrete state of the Complete shape used by claim C7: one URL,
visited, `currentIndex` at the last index. -/
def demoComplete : AppState :=
  { urls := [{ url := "https://a", visited := true }], isProcessing := false,
    currentIndex := 0, isPaused := false, error := "", timeDelay := 30,
    nextPageCountdown := 0, estimatedTimeLeft := "", timerArmed := false }

/-- A concrete state of the Complete shape used by claim C10. -/
def demoComplete2 : AppState :=
  { urls := [{ url := "https://b", visited := true }], isProcessing := false,
    currentIndex := 0, isPaused := false, error := "", timeDelay := 45,
    nextPageCountdown := 0, estimatedTimeLeft := "", timerArmed := false }

/-- Concrete run: a two-URL sitemap loaded and started, then a remote
fetch fails mid-run. -/
def demoFetchFailRun : AppState :=
  evApply .fetchFail (evApply .start (evApply (.loadFile [some "a", some "b"]) initState))

/-! ### Basic lemmas about the list helpers -/

theorem markVisitedAux_get? (target base : Int) (l : List SitemapUrl) (i : Nat) :
    (markVisitedAux target base l)[i]?
      = (l[i]?).map
          (fun r => if base + (i : Int) = target then { r with visited := true } else r) := by
  induction l generalizing base i with
  | nil => simp [markVisitedAux]
  | cons r rest ih =>
      cases i with
      | zero => simp [markVisitedAux]
      | succ n =>
          have harith : base + 1 + (n : Int) = base + ((n : Int) + 1) := by ring
          simp only [markVisitedAux, List.getElem?_cons_succ, ih, Nat.cast_succ, harith]

theorem markVisited_get? (l : List SitemapUrl) (target : Int) (i : Nat) :
    (markVisited l target)[i]?
      = (l[i]?).map
          (fun r => if (i : Int) = target then { r with visited := true } else r) := by
  unfold markVisited
  rw [markVisitedAux_get?]
  simp

theorem markVisited_length (l : List SitemapUrl) (target : Int) :
    (markVisited l target).length = l.length := by
  unfold markVisited
  generalize (0 : Int) = base
  induction l generalizing base with
  | nil => rfl
  | cons r rest ih => simp [markVisitedAux, ih]

theorem clearVisited_get? (l : List SitemapUrl) (i : Nat) :
    (clearVisited l)[i]? = (l[i]?).map (fun r => { r with visited := false }) := by
  simp [clearVisited]

theorem clearVisited_length (l : List SitemapUrl) :
    (clearVisited l).length = l.length := by
  simp [clearVisited]

theorem clearVisited_idem (l : List SitemapUrl) :
    clearVisited (clearVisited l) = clearVisited l := by
  simp [clearVisited]

/-! ### Field-preservation lemmas for the effects -/

@[simp] theorem runTimerEffect_urls (s : AppState) :
    (runTimerEffect s).urls = s.urls := by
  unfold runTimerEffect; split <;> rfl

@[simp] theorem runTimerEffect_isProcessing (s : AppState) :
    (runTimerEffect s).isProcessing = s.isProcessing := by
  unfold runTimerEffect; split <;> rfl

@[simp] theorem runTimerEffect_currentIndex (s : AppState) :
    (runTimerEffect s).currentIndex = s.currentIndex := by
  unfold runTimerEffect; split <;> rfl

@[simp] theorem runTimerEffect_isPaused (s : AppState) :
    (runTimerEffect s).isPaused = s.isPaused := by
  unfold runTimerEffect; split <;> rfl

@[simp] theorem runTimerEffect_error (s : AppState) :
    (runTimerEffect s).error = s.error := by
  unfold runTimerEffect; split <;> rfl

@[simp] theorem runTimerEffect_timeDelay (s : AppState) :
    (runTimerEffect s).timeDelay = s.timeDelay := by
  unfold runTimerEffect; split <;> rfl

@[simp] theorem runTimerEffect_estimatedTimeLeft (s : AppState) :
    (runTimerEffect s).estimatedTimeLeft = s.estimatedTimeLeft := by
  unfold runTimerEffect; split <;> rfl

@[simp] theorem runEtaEffect_urls (s : AppState) :
    (runEtaEffect s).urls = s.urls := by
  unfold runEtaEffect; split <;> rfl

@[simp] theorem runEtaEffect_isProcessing (s : AppState) :
    (runEtaEffect s).isProcessing = s.isProcessing := by
  unfold runEtaEffect; split <;> rfl

@[simp] theorem runEtaEffect_currentIndex (s : AppState) :
    (runEtaEffect s).currentIndex = s.currentIndex := by
  unfold runEtaEffect; split <;> rfl

@[simp] theorem runEtaEffect_isPaused (s : AppState) :
    (runEtaEffect s).isPaused = s.isPaused := by
  unfold runEtaEffect; split <;> rfl

@[simp] theorem runEtaEffect_error (s : AppState) :
    (runEtaEffect s).error = s.error := by
  unfold runEtaEffect; split <;> rfl

@[simp] theorem runEtaEffect_timeDelay (s : AppState) :
    (runEtaEffect s).timeDelay = s.timeDelay := by
  unfold runEtaEffect; split <;> rfl

@[simp] theorem runEtaEffect_nextPageCountdown (s : AppState) :
    (runEtaEffect s).nextPageCountdown = s.nextPageCountdown := by
  unfold runEtaEffect; split <;> rfl

@[simp] theorem runEtaEffect_timerArmed (s : AppState) :
    (runEtaEffect s).timerArmed = s.timerArmed := by
  unfold runEtaEffect; split <;> rfl

@[simp] theorem runEffects_urls (s : AppState) :
    (runEffects s).urls = s.urls := by simp [runEffects]

@[simp] theorem runEffects_isProcessing (s : AppState) :
    (runEffects s).isProcessing = s.isProcessing := by simp [runEffects]

@[simp] theorem runEffects_currentIndex (s : AppState) :
    (runEffects s).currentIndex = s.currentIndex := by simp [runEffects]

@[simp] theorem runEffects_isPaused (s : AppState) :
    (runEffects s).isPaused = s.isPaused := by simp [runEffects]

@[simp] theorem runEffects_error (s : AppState) :
    (runEffects s).error = s.error := by simp [runEffects]

@[simp] theorem runEffects_timeDelay (s : AppState) :
    (runEffects s).timeDelay = s.timeDelay := by simp [runEffects]

/-! ### The reachability invariant -/

theorem visOK_congr {s t : AppState} (h : VisOK s) (h1 : t.urls = s.urls)
    (h2 : t.currentIndex = s.currentIndex) : VisOK t := by
  unfold VisOK at *
  rw [h1, h2]
  exact h

theorem armedOK_congr {s t : AppState} (h : ArmedOK s) (h1 : t.timerArmed = s.timerArmed)
    (h2 : t.isProcessing = s.isProcessing) (h3 : t.isPaused = s.isPaused)
    (h4 : t.urls.length = s.urls.length) (h5 : t.currentIndex = s.currentIndex) :
    ArmedOK t := by
  unfold ArmedOK at *
  rw [h1, h2, h3, h4, h5]
  exact h

theorem etaOK_congr {s t : AppState} (h : EtaOK s)
    (h1 : t.estimatedTimeLeft = s.estimatedTimeLeft)
    (h2 : t.isProcessing = s.isProcessing) (h3 : t.isPaused = s.isPaused)
    (h4 : t.urls.length = s.urls.length) (h5 : t.currentIndex = s.currentIndex)
    (h6 : t.timeDelay = s.timeDelay) : EtaOK t := by
  unfold EtaOK at *
  rw [h1, h2, h3, h4, h5, h6]
  exact h

theorem runEffects_visOK {s : AppState} (h : VisOK s) : VisOK (runEffects s) :=
  visOK_congr h (runEffects_urls s) (runEffects_currentIndex s)

theorem runEffects_armedOK (s : AppState) : ArmedOK (runEffects s) := by
  unfold ArmedOK runEffects
  by_cases h : (s.isProcessing = true ∧ s.isPaused = false ∧
      s.currentIndex < (s.urls.length : Int) - 1)
  · simp only [runEtaEffect_timerArmed, runEtaEffect_isProcessing,
      runEtaEffect_isPaused, runEtaEffect_currentIndex, runEtaEffect_urls,
      runTimerEffect_isProcessing, runTimerEffect_isPaused,
      runTimerEffect_currentIndex, runTimerEffect_urls]
    unfold runTimerEffect
    rw [if_pos h]
    simpa using h
  · simp only [runEtaEffect_timerArmed, runEtaEffect_isProcessing,
      runEtaEffect_isPaused, runEtaEffect_currentIndex, runEtaEffect_urls,
      runTimerEffect_isProcessing, runTimerEffect_isPaused,
      runTimerEffect_currentIndex, runTimerEffect_urls]
    unfold runTimerEffect
    rw [if_neg h]
    simpa using h

theorem runEffects_etaOK (s : AppState) : EtaOK (runEffects s) := by
  unfold EtaOK runEffects
  set t := runTimerEffect s with ht
  by_cases h : (t.isProcessing = true ∧ t.isPaused = false)
  · intro _ _
    simp only [runEtaEffect_urls, runEtaEffect_currentIndex, runEtaEffect_timeDelay]
    unfold runEtaEffect
    rw [if_pos h]
  · intro hp hq
    exfalso
    apply h
    constructor
    · rw [← runEtaEffect_isProcessing t]; exact hp
    · rw [← runEtaEffect_isPaused t]; exact hq

theorem effectDeps_eq_iff (t s : AppState) :
    effectDeps t = effectDeps s ↔
      (t.currentIndex = s.currentIndex ∧ t.isProcessing = s.isProcessing ∧
        t.isPaused = s.isPaused ∧ t.urls.length = s.urls.length ∧
        t.timeDelay = s.timeDelay) := by
  unfold effectDeps
  constructor
  · intro h
    exact ⟨congrArg Prod.fst h,
      congrArg (fun p => p.2.1) h,
      congrArg (fun p => p.2.2.1) h,
      congrArg (fun p => p.2.2.2.1) h,
      congrArg (fun p => p.2.2.2.2) h⟩
  · rintro ⟨h1, h2, h3, h4, h5⟩
    rw [h1, h2, h3, h4, h5]

theorem good_of_branches (s t : AppState) (hvis : VisOK t) (hdel : 20 ≤ t.timeDelay)
    (hsame : effectDeps t = effectDeps s → ArmedOK t ∧ EtaOK t) :
    GoodState (if effectDeps t = effectDeps s then t else runEffects t) := by
  by_cases h : effectDeps t = effectDeps s
  · rw [if_pos h]
    exact ⟨hvis, hdel, (hsame h).1, (hsame h).2⟩
  · rw [if_neg h]
    refine ⟨runEffects_visOK hvis, ?_, runEffects_armedOK t, runEffects_etaOK t⟩
    rw [runEffects_timeDelay]
    exact hdel

/-! ### Characterizations of the branching handlers -/

theorem processNextUrl_adv {s : AppState}
    (hb : s.currentIndex < (s.urls.length : Int) - 1) (hp : s.isPaused = false) :
    processNextUrl s
      = ({ s with
            currentIndex := s.currentIndex + 1,
            urls := markVisited s.urls (s.currentIndex + 1) },
         ((s.urls[(s.currentIndex + 1).toNat]?).map (fun r => r.url)).toList) := by
  simp only [processNextUrl]
  rw [if_pos ⟨hb, hp⟩]

theorem processNextUrl_done {s : AppState}
    (hnb : ¬(s.currentIndex < (s.urls.length : Int) - 1 ∧ s.isPaused = false))
    (h2 : s.currentIndex = (s.urls.length : Int) - 1) :
    processNextUrl s = ({ s with isProcessing := false }, []) := by
  simp only [processNextUrl]
  rw [if_neg hnb, if_pos h2]

theorem processNextUrl_skip {s : AppState}
    (hnb : ¬(s.currentIndex < (s.urls.length : Int) - 1 ∧ s.isPaused = false))
    (hn2 : s.currentIndex ≠ (s.urls.length : Int) - 1) :
    processNextUrl s = (s, []) := by
  simp only [processNextUrl]
  rw [if_neg hnb, if_neg hn2]

theorem confirmStart_adv {s : AppState} (hm : s.currentIndex = -1)
    (hb : s.currentIndex < (s.urls.length : Int) - 1) (hp : s.isPaused = false) :
    confirmStart s
      = ({ s with
            isProcessing := true, isPaused := false,
            currentIndex := s.currentIndex + 1,
            urls := markVisited s.urls (s.currentIndex + 1) },
         ((s.urls[(s.currentIndex + 1).toNat]?).map (fun r => r.url)).toList) := by
  simp only [confirmStart, processNextUrl]
  rw [if_pos hm, if_pos ⟨hb, hp⟩]

theorem confirmStart_stop {s : AppState} (hm : s.currentIndex = -1)
    (hnb : ¬(s.currentIndex < (s.urls.length : Int) - 1 ∧ s.isPaused = false))
    (h2 : s.currentIndex = (s.urls.length : Int) - 1) :
    confirmStart s = ({ s with isProcessing := false, isPaused := false }, []) := by
  simp only [confirmStart, processNextUrl]
  rw [if_pos hm, if_neg hnb, if_pos h2]

theorem confirmStart_idle {s : AppState} (hm : s.currentIndex = -1)
    (hnb : ¬(s.currentIndex < (s.urls.length : Int) - 1 ∧ s.isPaused = false))
    (hn2 : s.currentIndex ≠ (s.urls.length : Int) - 1) :
    confirmStart s = ({ s with isProcessing := true, isPaused := false }, []) := by
  simp only [confirmStart, processNextUrl]
  rw [if_pos hm, if_neg hnb, if_neg hn2]

theorem confirmStart_notFirst {s : AppState} (hm : s.currentIndex ≠ -1) :
    confirmStart s = ({ s with isProcessing := true, isPaused := false }, []) := by
  simp only [confirmStart]
  rw [if_neg hm]

theorem evApply_def (e : Event) (s : AppState) :
    evApply e s
      = if effectDeps (handleEvent e s).1 = effectDeps s then (handleEvent e s).1
        else runEffects (handleEvent e s).1 := rfl

/-! ### Invariant preservation, event by event -/

theorem parseSitemap_visited (locs : List (Option String)) (i : Nat) (r : SitemapUrl)
    (hr : (parseSitemap locs)[i]? = some r) : r.visited = false := by
  unfold parseSitemap at hr
  rw [List.getElem?_map] at hr
  obtain ⟨a, _, rfl⟩ := Option.map_eq_some'.mp hr
  rfl

theorem markVisited_visOK {l : List SitemapUrl} {c : Int}
    (h : ∀ i : Nat, ∀ r : SitemapUrl, l[i]? = some r → (r.visited = true ↔ (i : Int) ≤ c)) :
    ∀ i : Nat, ∀ r : SitemapUrl, (markVisited l (c + 1))[i]? = some r →
      (r.visited = true ↔ (i : Int) ≤ c + 1) := by
  intro i r hr
  rw [markVisited_get?] at hr
  cases hl : l[i]? with
  | none => rw [hl] at hr; exact absurd hr (by simp)
  | some r0 =>
      rw [hl] at hr
      by_cases hi : (i : Int) = c + 1
      · rw [Option.map_some', if_pos hi] at hr
        have hr' : ({ r0 with visited := true } : SitemapUrl) = r := Option.some.inj hr
        rw [← hr']
        simp [hi]
      · rw [Option.map_some', if_neg hi] at hr
        have hr' : r0 = r := Option.some.inj hr
        rw [← hr', h i r0 hl]
        omega

theorem good_load (locs : List (Option String)) {s : AppState} (hs : GoodState s) :
    GoodState (evApply (.loadFile locs) s) := by
  obtain ⟨⟨hc, hv⟩, hdel, harm, heta⟩ := hs
  rw [evApply_def]
  apply good_of_branches s (handleFileUpload locs s)
  · refine ⟨le_refl _, ?_⟩
    intro i r hr
    have := parseSitemap_visited locs i r hr
    rw [this]
    constructor
    · intro hfalse; exact absurd hfalse (by simp)
    · intro hle
      have hle2 : (i : Int) ≤ -1 := hle
      exfalso; omega
  · exact hdel
  · intro hd
    obtain ⟨hc2, hp2, hq2, hlen2, hdl2⟩ := (effectDeps_eq_iff _ _).mp hd
    exact ⟨armedOK_congr harm rfl hp2 hq2 hlen2 hc2,
      etaOK_congr heta rfl hp2 hq2 hlen2 hc2 hdl2⟩

theorem good_fetchOk (locs : List (Option String)) {s : AppState} (hs : GoodState s) :
    GoodState (evApply (.fetchOk locs) s) := by
  obtain ⟨⟨hc, hv⟩, hdel, harm, heta⟩ := hs
  rw [evApply_def]
  apply good_of_branches s (fetchSitemapOk locs s)
  · refine ⟨le_refl _, ?_⟩
    intro i r hr
    have := parseSitemap_visited locs i r hr
    rw [this]
    constructor
    · intro hfalse; exact absurd hfalse (by simp)
    · intro hle
      have hle2 : (i : Int) ≤ -1 := hle
      exfalso; omega
  · exact hdel
  · intro hd
    obtain ⟨hc2, hp2, hq2, hlen2, hdl2⟩ := (effectDeps_eq_iff _ _).mp hd
    exact ⟨armedOK_congr harm rfl hp2 hq2 hlen2 hc2,
      etaOK_congr heta rfl hp2 hq2 hlen2 hc2 hdl2⟩

theorem good_fetchFail {s : AppState} (hs : GoodState s) :
    GoodState (evApply .fetchFail s) := by
  obtain ⟨⟨hc, hv⟩, hdel, harm, heta⟩ := hs
  rw [evApply_def]
  apply good_of_branches s (fetchSitemapErr s)
  · exact ⟨hc, by intro i r hr; exact absurd hr (by simp [fetchSitemapErr])⟩
  · exact hdel
  · intro hd
    obtain ⟨hc2, hp2, hq2, hlen2, hdl2⟩ := (effectDeps_eq_iff _ _).mp hd
    exact ⟨armedOK_congr harm rfl hp2 hq2 hlen2 hc2,
      etaOK_congr heta rfl hp2 hq2 hlen2 hc2 hdl2⟩

theorem etaOK_of_notProcessing {t : AppState} (h : t.isProcessing = false) : EtaOK t := by
  intro hp _
  exfalso
  rw [h] at hp
  exact absurd hp Bool.false_ne_true

theorem armedOK_of_false {t : AppState} (h1 : t.timerArmed = false)
    (h2 : t.isProcessing = false) : ArmedOK t := by
  unfold ArmedOK
  rw [h1, h2]
  simp

theorem good_start {s : AppState} (hs : GoodState s) : GoodState (evApply .start s) := by
  obtain ⟨⟨hc, hv⟩, hdel, harm, heta⟩ := hs
  rw [evApply_def]
  have hh : handleEvent .start s = confirmStart s := rfl
  rw [hh]
  by_cases hm : s.currentIndex = -1
  · by_cases hb1 : s.currentIndex < (s.urls.length : Int) - 1 ∧ s.isPaused = false
    · rw [confirmStart_adv hm hb1.1 hb1.2]
      apply good_of_branches
      · refine ⟨show -1 ≤ s.currentIndex + 1 by omega, ?_⟩
        exact markVisited_visOK hv
      · exact hdel
      · intro hd
        obtain ⟨hc2, _, _, _, _⟩ := (effectDeps_eq_iff _ _).mp hd
        exfalso
        have hc3 : s.currentIndex + 1 = s.currentIndex := hc2
        omega
    · by_cases hb2 : s.currentIndex = (s.urls.length : Int) - 1
      · rw [confirmStart_stop hm hb1 hb2]
        apply good_of_branches
        · exact ⟨hc, hv⟩
        · exact hdel
        · intro hd
          obtain ⟨hc2, hp2, hq2, hlen2, hdl2⟩ := (effectDeps_eq_iff _ _).mp hd
          exact ⟨armedOK_congr harm rfl hp2 hq2 hlen2 hc2,
            etaOK_congr heta rfl hp2 hq2 hlen2 hc2 hdl2⟩
      · rw [confirmStart_idle hm hb1 hb2]
        apply good_of_branches
        · exact ⟨hc, hv⟩
        · exact hdel
        · intro hd
          obtain ⟨hc2, hp2, hq2, hlen2, hdl2⟩ := (effectDeps_eq_iff _ _).mp hd
          exact ⟨armedOK_congr harm rfl hp2 hq2 hlen2 hc2,
            etaOK_congr heta rfl hp2 hq2 hlen2 hc2 hdl2⟩
  · rw [confirmStart_notFirst hm]
    apply good_of_branches
    · exact ⟨hc, hv⟩
    · exact hdel
    · intro hd
      obtain ⟨hc2, hp2, hq2, hlen2, hdl2⟩ := (effectDeps_eq_iff _ _).mp hd
      exact ⟨armedOK_congr harm rfl hp2 hq2 hlen2 hc2,
        etaOK_congr heta rfl hp2 hq2 hlen2 hc2 hdl2⟩

theorem good_pause {s : AppState} (hs : GoodState s) :
    GoodState (evApply .pauseToggle s) := by
  obtain ⟨⟨hc, hv⟩, hdel, harm, heta⟩ := hs
  rw [evApply_def]
  apply good_of_branches
  · exact ⟨hc, hv⟩
  · exact hdel
  · intro hd
    obtain ⟨_, _, hq2, _, _⟩ := (effectDeps_eq_iff _ _).mp hd
    exfalso
    have hq3 : (!s.isPaused) = s.isPaused := hq2
    exact absurd hq3 (by cases s.isPaused <;> simp)

theorem good_reset {s : AppState} (hs : GoodState s) : GoodState (evApply .reset s) := by
  obtain ⟨⟨hc, hv⟩, hdel, harm, heta⟩ := hs
  rw [evApply_def]
  apply good_of_branches
  · refine ⟨show (-1 : Int) ≤ -1 by omega, ?_⟩
    intro i r hr
    have hr' : (clearVisited s.urls)[i]? = some r := hr
    rw [clearVisited_get?] at hr'
    cases hl : s.urls[i]? with
    | none => rw [hl] at hr'; exact absurd hr' (by simp)
    | some r0 =>
        rw [hl, Option.map_some'] at hr'
        have hr2 : ({ r0 with visited := false } : SitemapUrl) = r := Option.some.inj hr'
        rw [← hr2]
        constructor
        · intro hfalse; exact absurd hfalse (by simp)
        · intro hle
          have hle2 : (i : Int) ≤ -1 := hle
          exfalso; omega
  · exact hdel
  · intro hd
    obtain ⟨hc2, hp2, hq2, hlen2, hdl2⟩ := (effectDeps_eq_iff _ _).mp hd
    have hsa : s.timerArmed = false := by
      cases hb : s.timerArmed
      · rfl
      · exfalso
        have hcond := harm.mp hb
        have hp3 : (false : Bool) = s.isProcessing := hp2
        rw [← hp3] at hcond
        exact absurd hcond.1 Bool.false_ne_true
    exact ⟨armedOK_of_false hsa rfl, etaOK_of_notProcessing rfl⟩

theorem good_stepTimer {s : AppState} (hs : GoodState s) :
    GoodState (evApply .stepTimer s) := by
  obtain ⟨⟨hc, hv⟩, hdel, harm, heta⟩ := hs
  rw [evApply_def]
  have hh : handleEvent .stepTimer s = stepTimerFire s := rfl
  rw [hh]
  by_cases ha : s.timerArmed = true
  · have hcond := harm.mp ha
    have hfire : stepTimerFire s = processNextUrl s := by
      unfold stepTimerFire
      rw [if_pos ha]
    rw [hfire, processNextUrl_adv hcond.2.2 hcond.2.1]
    apply good_of_branches
    · refine ⟨show -1 ≤ s.currentIndex + 1 by omega, ?_⟩
      exact markVisited_visOK hv
    · exact hdel
    · intro hd
      obtain ⟨hc2, _, _, _, _⟩ := (effectDeps_eq_iff _ _).mp hd
      exfalso
      have hc3 : s.currentIndex + 1 = s.currentIndex := hc2
      omega
  · have hfire : stepTimerFire s = (s, []) := by
      unfold stepTimerFire
      rw [if_neg ha]
    rw [hfire]
    apply good_of_branches
    · exact ⟨hc, hv⟩
    · exact hdel
    · intro _
      exact ⟨harm, heta⟩

theorem good_tick {s : AppState} (hs : GoodState s) : GoodState (evApply .tick s) := by
  obtain ⟨⟨hc, hv⟩, hdel, harm, heta⟩ := hs
  rw [evApply_def]
  have hh : handleEvent .tick s = (countdownTick s, []) := rfl
  rw [hh]
  by_cases ha : s.timerArmed = true
  · have ht : countdownTick s
        = { s with nextPageCountdown := max 0 (s.nextPageCountdown - 1) } := by
      unfold countdownTick
      rw [if_pos ha]
    rw [ht]
    apply good_of_branches
    · exact ⟨hc, hv⟩
    · exact hdel
    · intro _
      exact ⟨harm, heta⟩
  · have ht : countdownTick s = s := by
      unfold countdownTick
      rw [if_neg ha]
    rw [ht]
    apply good_of_branches
    · exact ⟨hc, hv⟩
    · exact hdel
    · intro _
      exact ⟨harm, heta⟩

theorem good_delay (v : Int) {s : AppState} (hs : GoodState s) :
    GoodState (evApply (.delayChange v) s) := by
  obtain ⟨⟨hc, hv⟩, hdel, harm, heta⟩ := hs
  rw [evApply_def]
  have hh : handleEvent (.delayChange v) s = (handleTimeDelayChange v s, []) := rfl
  rw [hh]
  by_cases hacc : s.isProcessing = false ∧ v ≥ 20
  · have ht : handleTimeDelayChange v s = { s with timeDelay := v } := by
      unfold handleTimeDelayChange
      rw [if_pos hacc]
    rw [ht]
    apply good_of_branches
    · exact ⟨hc, hv⟩
    · exact hacc.2
    · intro _
      exact ⟨armedOK_congr harm rfl rfl rfl rfl rfl, etaOK_of_notProcessing hacc.1⟩
  · have ht : handleTimeDelayChange v s = s := by
      unfold handleTimeDelayChange
      rw [if_neg hacc]
    rw [ht]
    apply good_of_branches
    · exact ⟨hc, hv⟩
    · exact hdel
    · intro _
      exact ⟨harm, heta⟩

theorem good_init : GoodState initState := by
  have h0 : initState.urls = [] := rfl
  have h1 : initState.currentIndex = -1 := rfl
  have h2 : initState.timeDelay = 30 := rfl
  refine ⟨⟨by rw [h1], ?_⟩, by rw [h2]; omega, ?_, ?_⟩
  · intro i r hr
    rw [h0] at hr
    exact absurd hr (by simp)
  · exact runEffects_armedOK _
  · exact runEffects_etaOK _

theorem good_step (e : Event) {s : AppState} (hs : GoodState s) :
    GoodState (evApply e s) := by
  cases e with
  | loadFile locs => exact good_load locs hs
  | fetchOk locs => exact good_fetchOk locs hs
  | fetchFail => exact good_fetchFail hs
  | start => exact good_start hs
  | pauseToggle => exact good_pause hs
  | reset => exact good_reset hs
  | stepTimer => exact good_stepTimer hs
  | tick => exact good_tick hs
  | delayChange v => exact good_delay v hs

theorem reachable_good {s : AppState} (h : Reachable s) : GoodState s := by
  induction h with
  | init => exact good_init
  | step e hr ih => exact good_step e ih

/-! ### Transport lemmas for `applyEvent` -/

theorem applyEvent_snd (e : Event) (s : AppState) :
    (applyEvent e s).2 = (handleEvent e s).2 := rfl

theorem evApply_urls_eq (e : Event) (s : AppState) :
    (evApply e s).urls = (handleEvent e s).1.urls := by
  rw [evApply_def]
  by_cases hd : effectDeps (handleEvent e s).1 = effectDeps s
  · rw [if_pos hd]
  · rw [if_neg hd, runEffects_urls]

theorem evApply_currentIndex_eq (e : Event) (s : AppState) :
    (evApply e s).currentIndex = (handleEvent e s).1.currentIndex := by
  rw [evApply_def]
  by_cases hd : effectDeps (handleEvent e s).1 = effectDeps s
  · rw [if_pos hd]
  · rw [if_neg hd, runEffects_currentIndex]

theorem evApply_isProcessing_eq (e : Event) (s : AppState) :
    (evApply e s).isProcessing = (handleEvent e s).1.isProcessing := by
  rw [evApply_def]
  by_cases hd : effectDeps (handleEvent e s).1 = effectDeps s
  · rw [if_pos hd]
  · rw [if_neg hd, runEffects_isProcessing]

theorem evApply_isPaused_eq (e : Event) (s : AppState) :
    (evApply e s).isPaused = (handleEvent e s).1.isPaused := by
  rw [evApply_def]
  by_cases hd : effectDeps (handleEvent e s).1 = effectDeps s
  · rw [if_pos hd]
  · rw [if_neg hd, runEffects_isPaused]

theorem evApply_error_eq (e : Event) (s : AppState) :
    (evApply e s).error = (handleEvent e s).1.error := by
  rw [evApply_def]
  by_cases hd : effectDeps (handleEvent e s).1 = effectDeps s
  · rw [if_pos hd]
  · rw [if_neg hd, runEffects_error]

theorem evApply_timeDelay_eq (e : Event) (s : AppState) :
    (evApply e s).timeDelay = (handleEvent e s).1.timeDelay := by
  rw [evApply_def]
  by_cases hd : effectDeps (handleEvent e s).1 = effectDeps s
  · rw [if_pos hd]
  · rw [if_neg hd, runEffects_timeDelay]

theorem applyEvent_of_handle_self {e : Event} {s : AppState}
    (h : handleEvent e s = (s, [])) : applyEvent e s = (s, []) := by
  unfold applyEvent
  rw [h]
  simp

theorem stepTimerFire_of_unarmed {s : AppState} (h : s.timerArmed = false) :
    stepTimerFire s = (s, []) := by
  unfold stepTimerFire
  rw [if_neg]
  rw [h]
  exact Bool.false_ne_true

theorem armed_false_of_notProcessing {s : AppState} (hg : GoodState s)
    (hp : s.isProcessing = false) : s.timerArmed = false := by
  cases hb : s.timerArmed
  · rfl
  · exfalso
    have hcond := hg.2.2.1.mp hb
    rw [hp] at hcond
    exact absurd hcond.1 Bool.false_ne_true

theorem armed_false_of_paused {s : AppState} (hg : GoodState s)
    (hq : s.isPaused = true) : s.timerArmed = false := by
  cases hb : s.timerArmed
  · rfl
  · exfalso
    have hcond := hg.2.2.1.mp hb
    rw [hq] at hcond
    exact absurd hcond.2.1 (by simp)

theorem runEffects_armed_false {t : AppState}
    (h : ¬(t.isProcessing = true ∧ t.isPaused = false ∧
        t.currentIndex < (t.urls.length : Int) - 1)) :
    (runEffects t).timerArmed = false := by
  cases hb : (runEffects t).timerArmed
  · rfl
  · exfalso
    have hcond := (runEffects_armedOK t).mp hb
    rw [runEffects_isProcessing, runEffects_isPaused, runEffects_currentIndex,
      runEffects_urls] at hcond
    exact h hcond

theorem evApply_reset_eq {s : AppState}
    (hsa : s.isProcessing = false → s.timerArmed = false) :
    evApply .reset s = { resetProcess s with timerArmed := false } := by
  rw [evApply_def]
  have hh : handleEvent .reset s = (resetProcess s, []) := rfl
  rw [hh]
  by_cases hd : effectDeps (resetProcess s, ([] : List String)).1 = effectDeps s
  · rw [if_pos hd]
    obtain ⟨_, hp2, _, _, _⟩ := (effectDeps_eq_iff _ _).mp hd
    have hp3 : (false : Bool) = s.isProcessing := hp2
    have harmF : s.timerArmed = false := hsa hp3.symm
    show resetProcess s = { resetProcess s with timerArmed := false }
    obtain ⟨u, p, c, q, er, d, cd, eta, ar⟩ := s
    simp only [resetProcess]
    simp only at harmF
    rw [harmF]
  · rw [if_neg hd]
    have harmF : (runEffects (resetProcess s, ([] : List String)).1).timerArmed = false := by
      apply runEffects_armed_false
      rintro ⟨h1, -, -⟩
      exact absurd h1 Bool.false_ne_true
    obtain ⟨u, p, c, q, er, d, cd, eta, ar⟩ := s
    simp only [runEffects, resetProcess, runTimerEffect, runEtaEffect] at harmF ⊢
    split at harmF
    · simp_all
    · split
      · simp_all
      · simp_all

/-! ### The claims -/

/-- C1: in every reachable state of the sequencer — i.e. after every event
(load, start, step, pause, resume, reset) — the visited flags form a
prefix of the URL list: if the record at index `i` is visited, every
record at an index `j < i` is visited too. -/
theorem c1_visited_flags_are_downward_closed {s : AppState} (h : Reachable s) :
    ∀ i j : Nat, j < i → ∀ ri rj : SitemapUrl,
      s.urls[i]? = some ri → s.urls[j]? = some rj →
      ri.visited = true → rj.visited = true := by
  intro i j hji ri rj hi hj hvis
  obtain ⟨⟨hc, hv⟩, -, -, -⟩ := reachable_good h
  have h1 := (hv i ri hi).mp hvis
  apply (hv j rj hj).mpr
  omega

/-- Witness for C1: a concrete reachable run (load three URLs, start, one
timer step) in which index 1 is visited, so index 0 must be visited. -/
theorem c1_witness :
    ({ url := "a", visited := true } : SitemapUrl).visited = true :=
  c1_visited_flags_are_downward_closed
    (Reachable.step .stepTimer (Reachable.step .start
      (Reachable.step (.loadFile [some "a", some "b", some "c"]) Reachable.init)))
    1 0 (by decide) { url := "b", visited := true } { url := "a", visited := true }
    (by decide) (by decide) (by decide)

/-- C2 counterexample: the claim says each record's url is the element's
text content **trimmed**; the code stores `loc.textContent || ''`
untrimmed, so a loc whose text has surrounding whitespace yields a record
whose url differs from the trimmed text. -/
theorem c2_parser_counterexample :
    (parseSitemap [some " https://example.com/page "]).map (fun r => r.url)
        = [" https://example.com/page "] ∧
      specTrim " https://example.com/page " = "https://example.com/page" ∧
      (" https://example.com/page " : String) ≠ "https://example.com/page" := by
  refine ⟨rfl, by decide, by decide⟩

/-- C2 amended: for every input with N loc elements, parseSitemap returns
exactly N records, in document order, each with visited = false and url
equal to the element's raw (untrimmed) text content, a null text content
defaulting to the empty string and an empty text yielding url = ""
rather than being filtered out. -/
theorem c2_parser_amended (locs : List (Option String)) :
    (parseSitemap locs).length = locs.length ∧
      ∀ i : Nat, ∀ t : Option String, locs[i]? = some t →
        (parseSitemap locs)[i]? = some { url := t.getD "", visited := false } := by
  constructor
  · simp [parseSitemap]
  · intro i t ht
    unfold parseSitemap
    rw [List.getElem?_map, ht, Option.map_some']

/-- Witness for C2: a three-element input (a URL, a null text content and
an empty text content) parses to three records; the null one becomes
url = "" and is not filtered out. -/
theorem c2_parser_witness :
    (parseSitemap [some "https://a", none, some ""]).length = 3 ∧
      (parseSitemap [some "https://a", none, some ""])[1]?
        = some { url := "", visited := false } :=
  ⟨(c2_parser_amended [some "https://a", none, some ""]).1,
    (c2_parser_amended [some "https://a", none, some ""]).2 1 none (by decide)⟩

/-- C3 counterexample: with three URLs and the default 30-second delay,
the Running state after start has 60 remaining seconds; the code displays
"1m" (omitting the zero seconds component even though it is not leading),
while the spec's leading-only omission would display "1m 0s". -/
theorem c3_eta_counterexample :
    demoRun3.isProcessing = true ∧ demoRun3.isPaused = false ∧
      demoRun3.estimatedTimeLeft = "1m" ∧
      specFormatDuration
          (((demoRun3.urls.length : Int) - (demoRun3.currentIndex + 1))
            * demoRun3.timeDelay) = "1m 0s" ∧
      ("1m" : String) ≠ "1m 0s" := by
  refine ⟨by decide, by decide, by decide, by decide, by decide⟩

/-- C3 amended: while Running (isProcessing = true, isPaused = false) the
estimated-remaining string equals
`(length - (currentIndex+1)) * delaySeconds` seconds formatted into
hours/minutes/seconds components, omitting **every** zero-valued
component (not only leading ones), joined by single spaces; 90 seconds
formats as "1m 30s" and 0 seconds as the empty string. -/
theorem c3_eta_amended {s : AppState} (h : Reachable s)
    (hp : s.isProcessing = true) (hq : s.isPaused = false) :
    s.estimatedTimeLeft
        = formatDuration (((s.urls.length : Int) - (s.currentIndex + 1)) * s.timeDelay) ∧
      formatDuration 90 = "1m 30s" ∧ formatDuration 0 = "" := by
  refine ⟨(reachable_good h).2.2.2 hp hq, by decide, rfl⟩

/-- Witness for C3: the concrete Running state after loading three URLs
and starting satisfies the amended claim. -/
theorem c3_eta_witness :
    demoRun3.estimatedTimeLeft
        = formatDuration (((demoRun3.urls.length : Int) - (demoRun3.currentIndex + 1))
            * demoRun3.timeDelay) ∧
      formatDuration 90 = "1m 30s" ∧ formatDuration 0 = "" :=
  c3_eta_amended
    (Reachable.step .start
      (Reachable.step (.loadFile [some "a", some "b", some "c"]) Reachable.init))
    (by decide) (by decide)

/-- C4: in every reachable state `delaySeconds` (timeDelay) is at least
20, whatever values were ever submitted through the delay-change event;
and while isProcessing = true a delay-change event leaves it unchanged for
every submitted value. -/
theorem c4_delay_floor_and_frozen_while_processing {s : AppState} (h : Reachable s) :
    20 ≤ s.timeDelay ∧
      ∀ v : Int, s.isProcessing = true →
        (evApply (.delayChange v) s).timeDelay = s.timeDelay := by
  refine ⟨(reachable_good h).2.1, ?_⟩
  intro v hp
  rw [evApply_timeDelay_eq]
  have hh : (handleEvent (.delayChange v) s).1 = handleTimeDelayChange v s := rfl
  rw [hh]
  unfold handleTimeDelayChange
  rw [if_neg]
  rintro ⟨h1, -⟩
  rw [hp] at h1
  exact absurd h1 (by simp)

/-- Witness for C4: the concrete Running state after loading three URLs
and starting has delay 30 ≥ 20, and submitting 5 while processing leaves
it at 30. -/
theorem c4_delay_witness :
    20 ≤ demoRun3.timeDelay ∧
      (evApply (.delayChange 5) demoRun3).timeDelay = demoRun3.timeDelay := by
  have h := c4_delay_floor_and_frozen_while_processing
    (Reachable.step .start
      (Reachable.step (.loadFile [some "a", some "b", some "c"]) Reachable.init))
  exact ⟨h.1, h.2 5 (by decide)⟩

/-- C5: from every reachable state, reset is idempotent — applying reset
twice yields the same state as applying it once — and the reset state has
all visited flags false, currentIndex = -1, isProcessing = false,
isPaused = false, countdown 0, an empty ETA string and no pending timer,
and reset opens no URL. -/
theorem c5_reset_idempotent {s : AppState} (h : Reachable s) :
    evApply .reset (evApply .reset s) = evApply .reset s ∧
      (∀ r : SitemapUrl, r ∈ (evApply .reset s).urls → r.visited = false) ∧
      (evApply .reset s).currentIndex = -1 ∧
      (evApply .reset s).isProcessing = false ∧
      (evApply .reset s).isPaused = false ∧
      (evApply .reset s).nextPageCountdown = 0 ∧
      (evApply .reset s).estimatedTimeLeft = "" ∧
      (evApply .reset s).timerArmed = false ∧
      (applyEvent .reset s).2 = [] := by
  have hg := reachable_good h
  have hr : evApply .reset s = { resetProcess s with timerArmed := false } :=
    evApply_reset_eq (armed_false_of_notProcessing hg)
  refine ⟨?_, ?_, ?_, ?_, ?_, ?_, ?_, ?_, rfl⟩
  · rw [hr]
    rw [evApply_reset_eq (fun _ => rfl)]
    obtain ⟨u, p, c, q, er, d, cd, eta, ar⟩ := s
    simp only [resetProcess]
    rw [clearVisited_idem]
  · intro r hrm
    rw [hr] at hrm
    have hrm2 : r ∈ clearVisited s.urls := hrm
    unfold clearVisited at hrm2
    rw [List.mem_map] at hrm2
    obtain ⟨a, -, hae⟩ := hrm2
    rw [← hae]
  · rw [hr]; rfl
  · rw [hr]; rfl
  · rw [hr]; rfl
  · rw [hr]; rfl
  · rw [hr]; rfl
  · rw [hr]

/-- Witness for C5: the initial state is reachable and reset from it
satisfies every conjunct. -/
theorem c5_reset_witness :
    evApply .reset (evApply .reset initState) = evApply .reset initState ∧
      (∀ r : SitemapUrl, r ∈ (evApply .reset initState).urls → r.visited = false) ∧
      (evApply .reset initState).currentIndex = -1 ∧
      (evApply .reset initState).isProcessing = false ∧
      (evApply .reset initState).isPaused = false ∧
      (evApply .reset initState).nextPageCountdown = 0 ∧
      (evApply .reset initState).estimatedTimeLeft = "" ∧
      (evApply .reset initState).timerArmed = false ∧
      (applyEvent .reset initState).2 = [] :=
  c5_reset_idempotent Reachable.init

/-- C6: in a reachable paused state no timer step changes currentIndex or
any visited flag and no URL is opened; a timer firing after a reset is a
complete no-op; and after a resume event (the pause toggle from a paused
Running state with records left) the per-step countdown restarts at the
full configured delay. -/
theorem c6_pause_blocks_steps_resume_restarts_countdown {s : AppState}
    (h : Reachable s) :
    (s.isPaused = true →
      (evApply .stepTimer s).currentIndex = s.currentIndex ∧
      (evApply .stepTimer s).urls = s.urls ∧
      (applyEvent .stepTimer s).2 = []) ∧
    applyEvent .stepTimer (evApply .reset s) = (evApply .reset s, []) ∧
    (s.isPaused = true → s.isProcessing = true →
      s.currentIndex < (s.urls.length : Int) - 1 →
      (evApply .pauseToggle s).nextPageCountdown = s.timeDelay) := by
  have hg := reachable_good h
  refine ⟨?_, ?_, ?_⟩
  · intro hq
    have hna : s.timerArmed = false := armed_false_of_paused hg hq
    have hfire : handleEvent .stepTimer s = (s, []) := stepTimerFire_of_unarmed hna
    have happ := applyEvent_of_handle_self hfire
    refine ⟨?_, ?_, ?_⟩
    · show (applyEvent .stepTimer s).1.currentIndex = s.currentIndex
      rw [happ]
    · show (applyEvent .stepTimer s).1.urls = s.urls
      rw [happ]
    · rw [happ]
  · have hTa : (evApply .reset s).timerArmed = false := by
      rw [evApply_reset_eq (armed_false_of_notProcessing hg)]
    have hfire : handleEvent .stepTimer (evApply .reset s) = (evApply .reset s, []) :=
      stepTimerFire_of_unarmed hTa
    exact applyEvent_of_handle_self hfire
  · intro hq hp hlt
    have hne : ¬(effectDeps (handleEvent .pauseToggle s).1 = effectDeps s) := by
      intro hd
      obtain ⟨-, -, hq2, -, -⟩ := (effectDeps_eq_iff _ _).mp hd
      have hq3 : (!s.isPaused) = s.isPaused := hq2
      rw [hq] at hq3
      exact absurd hq3 (by simp)
    rw [evApply_def, if_neg hne]
    show (runEffects (togglePause s)).nextPageCountdown = s.timeDelay
    unfold runEffects
    rw [runEtaEffect_nextPageCountdown]
    have hcond : (togglePause s).isProcessing = true ∧ (togglePause s).isPaused = false ∧
        (togglePause s).currentIndex < ((togglePause s).urls.length : Int) - 1 := by
      refine ⟨hp, ?_, hlt⟩
      show (!s.isPaused) = false
      rw [hq]
      rfl
    unfold runTimerEffect
    rw [if_pos hcond]
    rfl

/-- Witness for C6: the concrete paused run (three URLs loaded, started,
then paused at index 0) satisfies every part. -/
theorem c6_pause_witness :
    ((evApply .stepTimer demoPaused3).currentIndex = demoPaused3.currentIndex ∧
      (evApply .stepTimer demoPaused3).urls = demoPaused3.urls ∧
      (applyEvent .stepTimer demoPaused3).2 = []) ∧
      applyEvent .stepTimer (evApply .reset demoPaused3) = (evApply .reset demoPaused3, []) ∧
      (evApply .pauseToggle demoPaused3).nextPageCountdown = demoPaused3.timeDelay := by
  have h := c6_pause_blocks_steps_resume_restarts_countdown
    (Reachable.step .pauseToggle (Reachable.step .start
      (Reachable.step (.loadFile [some "a", some "b", some "c"]) Reachable.init)))
  exact ⟨h.1 (by decide), h.2.1, h.2.2 (by decide) (by decide) (by decide)⟩

/-- C7: when a step fires with currentIndex = urls.length - 1 the
sequencer sets isProcessing = false, changes neither currentIndex, the
records nor opens any URL, and the effects arm no further timer; and from
any state at the last index, a subsequent step-timer or tick event changes
neither currentIndex nor any visited flag. -/
theorem c7_step_at_last_index_completes {s : AppState}
    (h2 : s.currentIndex = (s.urls.length : Int) - 1) :
    (processNextUrl s).1.isProcessing = false ∧
      (processNextUrl s).1.currentIndex = s.currentIndex ∧
      (processNextUrl s).1.urls = s.urls ∧
      (processNextUrl s).2 = [] ∧
      (runEffects (processNextUrl s).1).timerArmed = false ∧
      (evApply .stepTimer s).currentIndex = s.currentIndex ∧
      (evApply .stepTimer s).urls = s.urls ∧
      (evApply .tick s).currentIndex = s.currentIndex ∧
      (evApply .tick s).urls = s.urls := by
  have hnb : ¬(s.currentIndex < (s.urls.length : Int) - 1 ∧ s.isPaused = false) := by
    rintro ⟨hlt, -⟩
    omega
  have hdone := processNextUrl_done hnb h2
  have hstep : (handleEvent .stepTimer s).1.currentIndex = s.currentIndex ∧
      (handleEvent .stepTimer s).1.urls = s.urls := by
    show (stepTimerFire s).1.currentIndex = s.currentIndex ∧
      (stepTimerFire s).1.urls = s.urls
    unfold stepTimerFire
    by_cases ha : s.timerArmed = true
    · rw [if_pos ha, hdone]
      exact ⟨rfl, rfl⟩
    · rw [if_neg ha]
      exact ⟨rfl, rfl⟩
  have htick : (handleEvent .tick s).1.currentIndex = s.currentIndex ∧
      (handleEvent .tick s).1.urls = s.urls := by
    show (countdownTick s).currentIndex = s.currentIndex ∧
      (countdownTick s).urls = s.urls
    unfold countdownTick
    by_cases ha : s.timerArmed = true
    · rw [if_pos ha]
      exact ⟨rfl, rfl⟩
    · rw [if_neg ha]
      exact ⟨rfl, rfl⟩
  refine ⟨by rw [hdone], by rw [hdone], by rw [hdone], by rw [hdone], ?_, ?_, ?_, ?_, ?_⟩
  · rw [hdone]
    apply runEffects_armed_false
    rintro ⟨h1, -, -⟩
    exact absurd h1 Bool.false_ne_true
  · rw [evApply_currentIndex_eq]
    exact hstep.1
  · rw [evApply_urls_eq]
    exact hstep.2
  · rw [evApply_currentIndex_eq]
    exact htick.1
  · rw [evApply_urls_eq]
    exact htick.2

/-- Witness for C7: the concrete Complete-shaped one-URL state. -/
theorem c7_complete_witness :
    (processNextUrl demoComplete).1.isProcessing = false ∧
      (processNextUrl demoComplete).1.currentIndex = demoComplete.currentIndex ∧
      (processNextUrl demoComplete).1.urls = demoComplete.urls ∧
      (processNextUrl demoComplete).2 = [] ∧
      (runEffects (processNextUrl demoComplete).1).timerArmed = false ∧
      (evApply .stepTimer demoComplete).currentIndex = demoComplete.currentIndex ∧
      (evApply .stepTimer demoComplete).urls = demoComplete.urls ∧
      (evApply .tick demoComplete).currentIndex = demoComplete.currentIndex ∧
      (evApply .tick demoComplete).urls = demoComplete.urls :=
  c7_step_at_last_index_completes (by decide)

/-- C8 counterexample: a failed fetch issued while a two-URL run is
processing leaves the sequencer at currentIndex = 0 with
isProcessing = true — not Idle (currentIndex = -1, isProcessing = false)
as the claim states — although the list is cleared and an error shown. -/
theorem c8_fetch_counterexample :
    demoFetchFailRun.urls = [] ∧ demoFetchFailRun.error ≠ "" ∧
      demoFetchFailRun.currentIndex = 0 ∧ demoFetchFailRun.isProcessing = true := by
  refine ⟨by decide, by decide, by decide, by decide⟩

/-- C8 amended: a failed fetch yields a non-empty user-visible error
message and an empty URL list but leaves currentIndex and isProcessing
unchanged (so the sequencer is Idle only if it already was); a successful
fetch produces exactly the same state as the file variant (freshly parsed
records, currentIndex = -1, error cleared). -/
theorem c8_fetch_amended (s : AppState) (locs : List (Option String)) :
    evApply (.fetchOk locs) s = evApply (.loadFile locs) s ∧
      (evApply .fetchFail s).error = fetchErrorMessage ∧
      fetchErrorMessage ≠ "" ∧
      (evApply .fetchFail s).urls = [] ∧
      (evApply .fetchFail s).currentIndex = s.currentIndex ∧
      (evApply .fetchFail s).isProcessing = s.isProcessing := by
  refine ⟨rfl, ?_, by decide, ?_, ?_, ?_⟩
  · rw [evApply_error_eq]
    rfl
  · rw [evApply_urls_eq]
    rfl
  · rw [evApply_currentIndex_eq]
    rfl
  · rw [evApply_isProcessing_eq]
    rfl

/-- C9: confirming Start from a reachable Idle state with an empty URL
list leaves the sequencer Idle: isProcessing = false, currentIndex = -1,
no URL opened and no timer armed (confirmStart runs processNextUrl, whose
`currentIndex === urls.length - 1` branch immediately clears
isProcessing again). -/
theorem c9_start_with_empty_list_stays_idle {s : AppState} (h : Reachable s)
    (hu : s.urls = []) (hc : s.currentIndex = -1) (hp : s.isProcessing = false) :
    (evApply .start s).isProcessing = false ∧
      (evApply .start s).currentIndex = -1 ∧
      (applyEvent .start s).2 = [] ∧
      (evApply .start s).timerArmed = false := by
  have hlen : s.urls.length = 0 := by rw [hu]; rfl
  have hnb : ¬(s.currentIndex < (s.urls.length : Int) - 1 ∧ s.isPaused = false) := by
    rintro ⟨hlt, -⟩
    omega
  have hb2 : s.currentIndex = (s.urls.length : Int) - 1 := by omega
  have hstop := confirmStart_stop hc hnb hb2
  refine ⟨?_, ?_, ?_, ?_⟩
  · rw [evApply_isProcessing_eq]
    show (confirmStart s).1.isProcessing = false
    rw [hstop]
  · rw [evApply_currentIndex_eq]
    show (confirmStart s).1.currentIndex = -1
    rw [hstop]
    exact hc
  · rw [applyEvent_snd]
    show (confirmStart s).2 = []
    rw [hstop]
  · rw [evApply_def]
    have hh : handleEvent .start s = confirmStart s := rfl
    rw [hh, hstop]
    by_cases hd : effectDeps (({ s with isProcessing := false, isPaused := false },
        ([] : List String)) : AppState × List String).1 = effectDeps s
    · rw [if_pos hd]
      show s.timerArmed = false
      exact armed_false_of_notProcessing (reachable_good h) hp
    · rw [if_neg hd]
      apply runEffects_armed_false
      rintro ⟨h1, -, -⟩
      exact absurd h1 Bool.false_ne_true

/-- Witness for C9: the initial state (empty list, Idle). -/
theorem c9_empty_start_witness :
    (evApply .start initState).isProcessing = false ∧
      (evApply .start initState).currentIndex = -1 ∧
      (applyEvent .start initState).2 = [] ∧
      (evApply .start initState).timerArmed = false :=
  c9_start_with_empty_list_stays_idle Reachable.init rfl rfl rfl

/-- C10 (implicit): confirming Start in a Complete-shaped state
(non-empty list, currentIndex at the last index, that record visited,
isProcessing = false) sets isProcessing = true without performing any
visit: currentIndex and the records are unchanged, no URL is opened, and
no step timer is armed. -/
theorem c10_start_in_complete_state_spins (s : AppState) (hne : s.urls ≠ [])
    (h2 : s.currentIndex = (s.urls.length : Int) - 1)
    (hp : s.isProcessing = false)
    (hlast : ∀ r : SitemapUrl, s.urls[s.urls.length - 1]? = some r → r.visited = true) :
    (evApply .start s).isProcessing = true ∧
      (evApply .start s).currentIndex = s.currentIndex ∧
      (evApply .start s).urls = s.urls ∧
      (applyEvent .start s).2 = [] ∧
      (evApply .start s).timerArmed = false := by
  have hlen : 0 < s.urls.length := List.length_pos.mpr hne
  have hm : s.currentIndex ≠ -1 := by omega
  have hstart := confirmStart_notFirst hm
  refine ⟨?_, ?_, ?_, ?_, ?_⟩
  · rw [evApply_isProcessing_eq]
    show (confirmStart s).1.isProcessing = true
    rw [hstart]
  · rw [evApply_currentIndex_eq]
    show (confirmStart s).1.currentIndex = s.currentIndex
    rw [hstart]
  · rw [evApply_urls_eq]
    show (confirmStart s).1.urls = s.urls
    rw [hstart]
  · rw [applyEvent_snd]
    show (confirmStart s).2 = []
    rw [hstart]
  · rw [evApply_def]
    have hh : handleEvent .start s = confirmStart s := rfl
    rw [hh, hstart]
    by_cases hd : effectDeps (({ s with isProcessing := true, isPaused := false },
        ([] : List String)) : AppState × List String).1 = effectDeps s
    · rw [if_pos hd]
      obtain ⟨-, hp2, -, -, -⟩ := (effectDeps_eq_iff _ _).mp hd
      have hp3 : (true : Bool) = s.isProcessing := hp2
      rw [hp] at hp3
      exact absurd hp3 (by simp)
    · rw [if_neg hd]
      apply runEffects_armed_false
      rintro ⟨-, -, h3⟩
      have h3x : s.currentIndex < (s.urls.length : Int) - 1 := h3
      omega

/-- Witness for C10: the concrete Complete-shaped one-URL state with its
record visited. -/
theorem c10_complete_restart_witness :
    (evApply .start demoComplete2).isProcessing = true ∧
      (evApply .start demoComplete2).currentIndex = demoComplete2.currentIndex ∧
      (evApply .start demoComplete2).urls = demoComplete2.urls ∧
      (applyEvent .start demoComplete2).2 = [] ∧
      (evApply .start demoComplete2).timerArmed = false :=
  c10_start_in_complete_state_spins demoComplete2 (by decide) (by decide) (by decide)
    (by
      intro r hr
      have hinj := Option.some.inj hr
      rw [← hinj]
      rfl)

end Brizy
